import Mathlib

/-!
Verification of scribe-forge-ai (audio transcription tool with speaker
diarization) against its natural-language specification.

The Python sources are shallowly embedded: float samples and timestamps
become `ℚ` (exact arithmetic models the pure data flow), dicts with a fixed
key schema become structures, numpy arrays become `List ℚ`, and fallible
library calls become explicit `Except`/function parameters.  Python dict
keys named `end` are rendered as the field `stop` (`end` is a Lean keyword).
-/

namespace ScribeForge

/-! ## Data model (src/transcriber.py, src/diarizer.py)

A transcription result is a dict `{text, language, segments}` where each
segment is `{id, start, end, text, words}` and each word is
`{word, start, end, probability}` (see
`Transcriber._format_faster_whisper_result`). -/

/-- A word-level entry of a transcription segment: Python dict
`{word, start, end, probability}` (`stop` models the key `end`). -/
structure Word where
  word : String
  start : ℚ
  stop : ℚ
  probability : ℚ
  deriving DecidableEq, Repr

/-- A transcription segment: Python dict `{id, start, end, text, words}`. -/
structure TransSegment where
  id : ℤ
  start : ℚ
  stop : ℚ
  text : String
  words : List Word
  deriving DecidableEq, Repr

/-- A transcription result: Python dict `{text, language, segments}`. -/
structure TransResult where
  text : String
  language : String
  segments : List TransSegment
  deriving DecidableEq, Repr

/-- A diarization speaker interval: Python dict `{start, end, speaker}`
(`Diarizer._format_diarization_result`). -/
structure DiarSegment where
  start : ℚ
  stop : ℚ
  speaker : String
  deriving DecidableEq, Repr

/-- A diarization result: Python dict `{segments, speakers}`. -/
structure DiarResult where
  segments : List DiarSegment
  speakers : List String
  deriving DecidableEq, Repr

/-- A transcription segment after alignment: the shallow copy of the original
segment (`base`) with the added key `speaker`
(`Diarizer.align_with_transcription`). -/
structure AlignedSegment where
  base : TransSegment
  speaker : String
  deriving DecidableEq, Repr

/-- The aligned result: the copy of the transcription result whose
`segments` are the aligned segments and with the added key `speakers`. -/
structure AlignedResult where
  text : String
  language : String
  segments : List AlignedSegment
  speakers : List String
  deriving DecidableEq, Repr

/-! ## Alignment (src/diarizer.py lines 243-292) -/

/-- `Diarizer._find_speaker_at_time`: scan the diarization segments in list
order and return the speaker of the first segment with
`start <= timestamp <= end`; return `"SPEAKER_00"` when none contains it. -/
def findSpeakerAtTime (d : DiarResult) (timestamp : ℚ) : String :=
  match d.segments.find? (fun s => decide (s.start ≤ timestamp) && decide (timestamp ≤ s.stop)) with
  | some s => s.speaker
  | none => "SPEAKER_00"

/-- `Diarizer.align_with_transcription`: for each transcription segment, copy
it and add the speaker found at the segment midpoint `(start+end)/2`; copy
the result, replace `segments`, add `speakers` from the diarization result. -/
def alignWithTranscription (tr : TransResult) (d : DiarResult) : AlignedResult :=
  { text := tr.text
    language := tr.language
    segments := tr.segments.map
      (fun s => { base := s, speaker := findSpeakerAtTime d ((s.start + s.stop) / 2) })
    speakers := d.speakers }

/-- The spec's reading of the join in which the LAST matching interval wins
(stated for comparison with `findSpeakerAtTime`, which the code implements
with an early return, so the FIRST match wins). -/
def findSpeakerAtTimeLastWins (d : DiarResult) (timestamp : ℚ) : String :=
  match (d.segments.filter
      (fun s => decide (s.start ≤ timestamp) && decide (timestamp ≤ s.stop))).getLast? with
  | some s => s.speaker
  | none => "SPEAKER_00"

/-! ## Enhancement presets (src/audio_enhancer.py lines 18-48, 276-307) -/

/-- The effective `(noise_level, dereverb, voice_isolation)` triple used by
`AudioEnhancer.enhance_audio` after its preset `if/elif` chain. -/
structure EnhanceParams where
  noise_level : ℚ
  dereverb : Bool
  voice_isolation : Bool
  deriving DecidableEq, Repr

/-- The preset `if/elif` chain at the top of `AudioEnhancer.enhance_audio`:
`"meeting"`, `"podcast"` and `"phone"` overwrite the caller-supplied
arguments; any other preset (including `"default"`) leaves them unchanged. -/
def applyPreset (preset : String) (noise_level : ℚ) (dereverb voice_isolation : Bool) :
    EnhanceParams :=
  if preset = "meeting" then ⟨7/10, true, true⟩
  else if preset = "podcast" then ⟨2/5, false, true⟩
  else if preset = "phone" then ⟨4/5, true, true⟩
  else ⟨noise_level, dereverb, voice_isolation⟩

/-- One entry of the preset table of `AudioEnhancer.get_enhancement_info`. -/
structure PresetInfo where
  description : String
  noise_reduction : ℚ
  dereverb : Bool
  voice_isolation : Bool
  deriving DecidableEq, Repr

/-- `AudioEnhancer.get_enhancement_info`: the preset table, with
`presets.get(preset, presets["default"])` falling back to `"default"`. -/
def getEnhancementInfo (preset : String) : PresetInfo :=
  if preset = "meeting" then
    ⟨"Optimized for meeting recordings with multiple speakers", 7/10, true, true⟩
  else if preset = "podcast" then
    ⟨"Light enhancement for good quality recordings", 2/5, false, true⟩
  else if preset = "phone" then
    ⟨"Aggressive enhancement for phone/low quality audio", 4/5, true, true⟩
  else
    ⟨"Balanced enhancement for general audio", 1/2, true, true⟩

/-! ## Peak normalization (src/audio_processor.py lines 113-118) -/

/-- `np.max(np.abs(audio))`, the peak magnitude (0 on the empty list). -/
def maxAbs (audio : List ℚ) : ℚ :=
  audio.foldl (fun m x => max m |x|) 0

/-- `AudioProcessor._normalize_audio`: when the peak is positive, scale by
`0.95 / peak` (the code computes `audio / max_val * 0.95` elementwise);
otherwise return the waveform unchanged. -/
def normalizeAudio (audio : List ℚ) : List ℚ :=
  let max_val := maxAbs audio
  if 0 < max_val then audio.map (fun x => x / max_val * (19/20)) else audio

/-! ## Clustering failure fallback (src/diarizer.py lines 123-158)

`Diarizer._cluster_speakers` builds an `AgglomerativeClustering` object
(whose parameters depend on the `conservative` flag) and calls
`fit_predict`; that fallible library call is the parameter `fitPredict`. -/

/-- `Diarizer._cluster_speakers`: with at most one embedding return
`[0] * len(embeddings)` at once; otherwise run the clustering routine and
return its labels, degrading to `[0] * len(embeddings)` when it raises. -/
def clusterSpeakers (embeddings : List (List ℚ))
    (fitPredict : List (List ℚ) → Except String (List ℕ)) : List ℕ :=
  if embeddings.length ≤ 1 then List.replicate embeddings.length 0
  else
    match fitPredict embeddings with
    | .ok labels => labels
    | .error _ => List.replicate embeddings.length 0

/-! ## JSON output (src/output_formatter.py lines 57-71)

`_save_json` builds `{"metadata": {...}, "transcription": result}` and
serializes it with `json.dump`; re-reading uses `json.load`.  The `json`
library's string round trip is exact for every JSON-representable Python
value (floats print as shortest round-tripping decimals), so it is modelled
as the identity on the JSON tree: we encode the result dict into a `Json`
tree exactly as `_save_json` lays it out and decode it back. -/

/-- A JSON value as Python's `json` module produces it (numbers as `ℚ`,
modelling exact float round trips). -/
inductive Json where
  | null
  | bool (b : Bool)
  | num (q : ℚ)
  | str (s : String)
  | arr (elems : List Json)
  | obj (fields : List (String × Json))

/-- The JSON encoding of a word dict `{word, start, end, probability}`. -/
def wordToJson (w : Word) : Json :=
  .obj [("word", .str w.word), ("start", .num w.start), ("end", .num w.stop),
        ("probability", .num w.probability)]

/-- The JSON encoding of a segment dict `{id, start, end, text, words}`. -/
def segmentToJson (s : TransSegment) : Json :=
  .obj [("id", .num (s.id : ℚ)), ("start", .num s.start), ("end", .num s.stop),
        ("text", .str s.text), ("words", .arr (s.words.map wordToJson))]

/-- The JSON encoding of the result dict `{text, language, segments}`. -/
def resultToJson (r : TransResult) : Json :=
  .obj [("text", .str r.text), ("language", .str r.language),
        ("segments", .arr (r.segments.map segmentToJson))]

/-- `OutputFormatter._save_json`: the serialized document
`{"metadata": {created_at, language, has_speakers, total_segments},
"transcription": result}` (`now` stands for `datetime.now().isoformat()`;
`has_speakers` is false for a plain transcription result, which has no
`speakers` key). -/
def saveJson (now : String) (r : TransResult) : Json :=
  .obj [("metadata", .obj
          [("created_at", .str now), ("language", .str r.language),
           ("has_speakers", .bool false),
           ("total_segments", .num (r.segments.length : ℚ))]),
        ("transcription", resultToJson r)]

/-- Key lookup in a parsed JSON object. -/
def Json.lookup : Json → String → Option Json
  | .obj fields, k => List.lookup k fields
  | _, _ => none

/-- Read back a JSON string. -/
def Json.asStr : Json → Option String
  | .str s => some s
  | _ => none

/-- Read back a JSON number. -/
def Json.asNum : Json → Option ℚ
  | .num q => some q
  | _ => none

/-- Read back a JSON integer (Python's `json` parses undecorated integer
literals back to `int`). -/
def Json.asInt : Json → Option ℤ
  | .num q => if q.den = 1 then some q.num else none
  | _ => none

/-- Read back a JSON array. -/
def Json.asArr : Json → Option (List Json)
  | .arr elems => some elems
  | _ => none

/-- Decode a word entry from parsed JSON. -/
def jsonToWord (j : Json) : Option Word := do
  let w ← (j.lookup "word").bind Json.asStr
  let s ← (j.lookup "start").bind Json.asNum
  let e ← (j.lookup "end").bind Json.asNum
  let p ← (j.lookup "probability").bind Json.asNum
  pure ⟨w, s, e, p⟩

/-- Decode a list of word entries from parsed JSON. -/
def decodeWords : List Json → Option (List Word)
  | [] => some []
  | j :: js => do
      let w ← jsonToWord j
      let ws ← decodeWords js
      pure (w :: ws)

/-- Decode a transcription segment from parsed JSON. -/
def jsonToSegment (j : Json) : Option TransSegment := do
  let i ← (j.lookup "id").bind Json.asInt
  let s ← (j.lookup "start").bind Json.asNum
  let e ← (j.lookup "end").bind Json.asNum
  let t ← (j.lookup "text").bind Json.asStr
  let ws ← (j.lookup "words").bind Json.asArr
  let words ← decodeWords ws
  pure ⟨i, s, e, t, words⟩

/-- Decode a list of transcription segments from parsed JSON. -/
def decodeSegments : List Json → Option (List TransSegment)
  | [] => some []
  | j :: js => do
      let s ← jsonToSegment j
      let ss ← decodeSegments js
      pure (s :: ss)

/-- Decode a whole transcription result from parsed JSON. -/
def jsonToResult (j : Json) : Option TransResult := do
  let t ← (j.lookup "text").bind Json.asStr
  let l ← (j.lookup "language").bind Json.asStr
  let segs ← (j.lookup "segments").bind Json.asArr
  let segments ← decodeSegments segs
  pure ⟨t, l, segments⟩

/-! ## Spectral subtraction overlap-add (src/audio_enhancer.py lines 112-165)

`_spectral_subtraction` slides a 2048-sample window with hop 1024 over the
input, processes each window (FFT, magnitude subtraction with a `0.1`
floor, inverse FFT — that per-window pipeline is the abstract parameter
`f`, since the claims concern the overlap-add reconstruction around it),
accumulates `enhanced_audio[start:end] += enhanced_window` and
`window_counts[start:end] += 1`, and finally divides elementwise with
`np.divide(..., out=np.zeros_like(...), where=window_counts != 0)`. -/

/-- Slice addition at offset `s` with running index `i`:
models `array[s : s + len(w)] += w`. -/
def addAtAux (w : List ℚ) (s : ℕ) : ℕ → List ℚ → List ℚ
  | _, [] => []
  | i, x :: xs =>
      (if s ≤ i ∧ i < s + w.length then x + w.getD (i - s) 0 else x) :: addAtAux w s (i + 1) xs

/-- `xs[s : s + len(w)] += w` (numpy in-place slice addition; the caller
always has `s + len(w) ≤ len(xs)`). -/
def addAt (xs : List ℚ) (s : ℕ) (w : List ℚ) : List ℚ :=
  addAtAux w s 0 xs

/-- `n_windows = (len(audio) - window_size) // hop_size + 1` with
`window_size = 2048`, `hop_size = 1024` (Python floor division). -/
def nWindows (n : ℕ) : ℤ :=
  ((n : ℤ) - 2048).fdiv 1024 + 1

/-- The start indices of the complete windows actually processed: the loop
runs `i` over `range(n_windows)` with `start = i * hop_size` and breaks as
soon as `start + window_size > len(audio)`. -/
def winStarts (n : ℕ) : List ℕ :=
  ((List.range (nWindows n).toNat).map (· * 1024)).takeWhile
    (fun s => decide (s + 2048 ≤ n))

/-- `audio[start : start + 2048]`, the window handed to the per-window
spectral processing. -/
def windowSlice (audio : List ℚ) (s : ℕ) : List ℚ :=
  (audio.drop s).take 2048

/-- One iteration of the window loop: accumulate the processed window into
`enhanced_audio` and bump `window_counts` on the same slice. -/
def ssStep (f : List ℚ → List ℚ) (audio : List ℚ)
    (st : List ℚ × List ℚ) (s : ℕ) : List ℚ × List ℚ :=
  (addAt st.1 s (f (windowSlice audio s)), addAt st.2 s (List.replicate 2048 1))

/-- `AudioEnhancer._spectral_subtraction` with the per-window spectral
pipeline abstracted as `f`: zero-initialized accumulators, the window loop,
and the final guarded elementwise division (`out=zeros, where=counts != 0`). -/
def spectralSubtraction (f : List ℚ → List ℚ) (audio : List ℚ) : List ℚ :=
  let n := audio.length
  let final := (winStarts n).foldl (ssStep f audio)
    (List.replicate n 0, List.replicate n 0)
  List.zipWith (fun e c => if c = 0 then 0 else e / c) final.1 final.2

/-- The sum of the overlapping windows' contributions at position `p`. -/
def overlapSum (f : List ℚ → List ℚ) (audio : List ℚ) (p : ℕ) : ℚ :=
  ((winStarts audio.length).map (fun s =>
      if s ≤ p ∧ p < s + 2048 then (f (windowSlice audio s)).getD (p - s) 0 else 0)).sum

/-- The number of complete windows covering position `p`. -/
def coverCount (audio : List ℚ) (p : ℕ) : ℕ :=
  ((winStarts audio.length).filter (fun s => decide (s ≤ p ∧ p < s + 2048))).length

/-! ## Merging similar speakers (src/diarizer.py lines 160-206)

`_merge_similar_speakers` computes per-cluster centroid embeddings as
means, then runs a single greedy pass over ordered label pairs: for each
surviving `label1` in order, every later not-yet-absorbed `label2` whose
centroid cosine similarity with `label1` exceeds `0.85` is mapped to
`label1`; finally the mapping is applied to the label list. -/

/-- `np.dot` on embedding vectors. -/
def dotQ (a b : List ℚ) : ℚ :=
  (List.zipWith (· * ·) a b).sum

/-- The squared euclidean norm `np.linalg.norm(a) ** 2`. -/
def normSq (a : List ℚ) : ℚ :=
  dotQ a a

/-- Elementwise vector addition. -/
def vecAdd (a b : List ℚ) : List ℚ :=
  List.zipWith (· + ·) a b

/-- `np.mean(vs, axis=0)`: the elementwise sum divided by the count. -/
def vecMean (vs : List (List ℚ)) : List ℚ :=
  match vs with
  | [] => []
  | v :: rest => (rest.foldl vecAdd v).map (fun x => x / (vs.length : ℚ))

/-- `embeddings[np.array(labels) == label]`: the embeddings of one cluster. -/
def clusterMembers (embeddings : List (List ℚ)) (labels : List ℕ) (l : ℕ) :
    List (List ℚ) :=
  (embeddings.zip labels).filterMap (fun el => if el.2 = l then some el.1 else none)

/-- The centroid of cluster `l`: the mean of its embeddings. -/
def centroid (embeddings : List (List ℚ)) (labels : List ℕ) (l : ℕ) : List ℚ :=
  vecMean (clusterMembers embeddings labels l)

/-- The comparison `np.dot(a, b) / (norm(a) * norm(b)) > t` rendered without
irrational square roots: for `t > 0` it is exactly
`0 < a·b ∧ t² · ‖a‖² · ‖b‖² < (a·b)²`; a zero-norm centroid gives a `nan`
similarity in numpy, whose comparison is false, matching this rendering
(zero norm forces a zero dot product). -/
def simGT (a b : List ℚ) (t : ℚ) : Bool :=
  decide (0 < dotQ a b) && decide (t ^ 2 * (normSq a * normSq b) < dotQ a b ^ 2)

/-- `list(set(labels))`: CPython iterates a set of the small nonnegative
`int` labels produced by clustering in ascending value order. -/
def uniqueLabels (labels : List ℕ) : List ℕ :=
  (List.range (labels.foldl max 0 + 1)).filter (fun l => labels.contains l)

/-- The inner loop over `unique_labels[i+1:]`: absorb each later label `l2`
that is not yet absorbed and whose centroid similarity with `l1` exceeds the
threshold, appending `label_mapping[label2] = label1`. -/
def innerPass (c : ℕ → List ℚ) (l1 : ℕ) : List ℕ → List (ℕ × ℕ) → List (ℕ × ℕ)
  | [], mapping => mapping
  | l2 :: rest, mapping =>
      if (mapping.lookup l2).isSome then innerPass c l1 rest mapping
      else if simGT (c l1) (c l2) (17/20) then innerPass c l1 rest (mapping ++ [(l2, l1)])
      else innerPass c l1 rest mapping

/-- The outer loop over `unique_labels`: skip absorbed labels, otherwise run
the inner pass against all later labels. -/
def outerPass (c : ℕ → List ℚ) : List ℕ → List (ℕ × ℕ) → List (ℕ × ℕ)
  | [], mapping => mapping
  | l1 :: rest, mapping =>
      if (mapping.lookup l1).isSome then outerPass c rest mapping
      else outerPass c rest (innerPass c l1 rest mapping)

/-- `Diarizer._merge_similar_speakers`: return the labels unchanged when at
most one cluster exists; otherwise build the greedy label mapping from the
centroid similarities and apply it. -/
def mergeSimilarSpeakers (embeddings : List (List ℚ)) (labels : List ℕ) : List ℕ :=
  if (uniqueLabels labels).length ≤ 1 then labels
  else labels.map (fun l =>
    (((outerPass (centroid embeddings labels) (uniqueLabels labels) []).lookup l).getD l))

/-! ## Output path and format dispatch
(src/output_formatter.py lines 16-55, src/main.py lines 62-79)

`save_output` keeps the provided path when its `pathlib` suffix, lowercased,
is one of `.json`, `.txt`, `.md`; otherwise it applies
`with_suffix("." + format_type)`, which REPLACES an existing suffix and
appends one otherwise.  It then dispatches on `format_type` alone to pick
the serializer.  `main` pre-normalizes the output path: a path with any
suffix is kept, a suffix-free path gets the selected format's extension.
Paths are modelled as their final file-name component (the suffix logic of
`pathlib` only inspects the name). -/

/-- `PurePath.suffix`: the part of the name from the last `.` on, empty when
the last dot is the first or the final character.  Computed via the reversed
character list: `after` holds the characters after the last dot. -/
def pathSuffix (name : String) : String :=
  match name.data.reverse.dropWhile (fun c => decide (c ≠ '.')) with
  | [] => ""
  | _ :: before =>
      if 1 ≤ (name.data.reverse.takeWhile (fun c => decide (c ≠ '.'))).length
          ∧ 1 ≤ before.length
      then String.mk ('.' :: (name.data.reverse.takeWhile (fun c => decide (c ≠ '.'))).reverse)
      else ""

/-- `PurePath.with_suffix`: strip the current suffix (a no-op when there is
none) and append the new one. -/
def withSuffix (name : String) (suffix : String) : String :=
  String.mk (name.data.take (name.data.length - (pathSuffix name).data.length)
    ++ suffix.data)

/-- `str.lower()` on the ASCII extensions involved. -/
def lowerStr (s : String) : String :=
  String.mk (s.data.map Char.toLower)

/-- The extension whitelist `{".json", ".txt", ".md"}` of `save_output`. -/
def recognizedExts : List String :=
  [".json", ".txt", ".md"]

/-- The output path `save_output` finally writes to. -/
def outputFile (output_path : String) (format_type : String) : String :=
  if recognizedExts.contains (lowerStr (pathSuffix output_path)) then output_path
  else withSuffix output_path ("." ++ format_type)

/-- `f"{i:02d}"`: zero-pad single nonnegative digits to width 2. -/
def pad2 (i : ℤ) : String :=
  if 0 ≤ i ∧ i < 10 then "0" ++ toString i else toString i

/-- `OutputFormatter._format_timestamp`: `HH:MM:SS` from a second count
(`hours = int(s // 3600)`, `minutes = int((s % 3600) // 60)`,
`secs = int(s % 60)`; Python `%` on a positive divisor is nonnegative, so
`int()` truncation equals the floor). -/
def formatTimestamp (seconds : ℚ) : String :=
  let hours : ℤ := ⌊seconds / 3600⌋
  let minutes : ℤ := ⌊(seconds - 3600 * ⌊seconds / 3600⌋) / 60⌋
  let secs : ℤ := ⌊seconds - 60 * ⌊seconds / 60⌋⌋
  pad2 hours ++ ":" ++ pad2 minutes ++ ":" ++ pad2 secs

/-- `OutputFormatter._save_txt` for a plain transcription result (no
`speakers` key, no per-segment `speaker` keys); `now` stands for the
formatted `datetime.now()`. -/
def renderTxt (now : String) (r : TransResult) : String :=
  "Audio Transcription\n"
    ++ ("Generated: " ++ now ++ "\n")
    ++ ("Language: " ++ r.language ++ "\n")
    ++ ("\n" ++ String.mk (List.replicate 50 '=') ++ "\n\n")
    ++ String.join (r.segments.map (fun seg =>
        "[" ++ formatTimestamp seg.start ++ "] " ++ seg.text ++ "\n"))
    ++ ("\n" ++ String.mk (List.replicate 50 '=') ++ "\n")
    ++ "FULL TRANSCRIPTION:\n\n"
    ++ r.text

/-- `OutputFormatter._save_markdown` for a plain transcription result. -/
def renderMd (now : String) (r : TransResult) : String :=
  "# Audio Transcription\n\n"
    ++ ("**Generated:** " ++ now ++ "  \n")
    ++ ("**Language:** " ++ r.language ++ "  \n")
    ++ "\n---\n\n"
    ++ "## Transcription with Timestamps\n\n"
    ++ String.join (r.segments.map (fun seg =>
        "**" ++ formatTimestamp seg.start ++ "**: " ++ seg.text ++ "\n\n"))
    ++ "\n---\n\n"
    ++ "## Full Transcription\n\n"
    ++ r.text

/-- What `save_output` serializes, tagged by the serializer that ran. -/
inductive SavedDoc where
  | json (j : Json)
  | txt (s : String)
  | md (s : String)

/-- `OutputFormatter.save_output` for a plain transcription result (the
diarization merge is `alignWithTranscription`): the final path and the
serialized document, `none` when `format_type` is unrecognized (the code
writes nothing then). -/
def saveOutput (r : TransResult) (now : String) (output_path format_type : String) :
    String × Option SavedDoc :=
  (outputFile output_path format_type,
    if format_type = "json" then some (.json (saveJson now r))
    else if format_type = "txt" then some (.txt (renderTxt now r))
    else if format_type = "md" then some (.md (renderMd now r))
    else none)

/-- `main`'s `ext_map` (argparse restricts `--format` to the three
choices). -/
def extMap (format_type : String) : String :=
  if format_type = "json" then ".json"
  else if format_type = "txt" then ".txt"
  else ".md"

/-- `main`'s output-path pre-flight: keep a path bearing ANY suffix,
otherwise attach the selected format's extension. -/
def mainNormalize (output_path : String) (format_type : String) : String :=
  if pathSuffix output_path ≠ "" then output_path
  else withSuffix output_path (extMap format_type)

/-! ## Helper lemmas -/

lemma jsonToWord_wordToJson (w : Word) : jsonToWord (wordToJson w) = some w := rfl

lemma decodeWords_map (ws : List Word) :
    decodeWords (ws.map wordToJson) = some ws := by
  induction ws with
  | nil => rfl
  | cons w ws ih => simp [decodeWords, jsonToWord_wordToJson, ih]

lemma jsonToSegment_segmentToJson (s : TransSegment) :
    jsonToSegment (segmentToJson s) = some s := by
  have h1 : Json.asInt (.num (s.id : ℚ)) = some s.id := by
    simp [Json.asInt, Rat.den_intCast, Rat.num_intCast]
  calc jsonToSegment (segmentToJson s)
      = (Json.asInt (.num (s.id : ℚ))).bind (fun i =>
          (decodeWords (s.words.map wordToJson)).bind (fun words =>
            some ⟨i, s.start, s.stop, s.text, words⟩)) := rfl
    _ = some s := by rw [h1, decodeWords_map]; rfl

lemma decodeSegments_map (ss : List TransSegment) :
    decodeSegments (ss.map segmentToJson) = some ss := by
  induction ss with
  | nil => rfl
  | cons s ss ih => simp [decodeSegments, jsonToSegment_segmentToJson, ih]

lemma le_foldl_maxAbs (l : List ℚ) (init : ℚ) :
    init ≤ l.foldl (fun m x => max m |x|) init := by
  induction l generalizing init with
  | nil => exact le_refl _
  | cons a l ih => exact le_trans (le_max_left _ _) (ih (max init |a|))

lemma mem_le_foldl_maxAbs (l : List ℚ) :
    ∀ (init y : ℚ), y ∈ l → |y| ≤ l.foldl (fun m x => max m |x|) init := by
  induction l with
  | nil => intro init y hy; cases hy
  | cons a l ih =>
    intro init y hy
    rcases List.mem_cons.mp hy with h | h
    · subst h
      exact le_trans (le_max_right init |y|) (le_foldl_maxAbs l (max init |y|))
    · exact ih (max init |a|) y h

lemma mem_le_maxAbs (audio : List ℚ) (y : ℚ) (hy : y ∈ audio) : |y| ≤ maxAbs audio :=
  mem_le_foldl_maxAbs audio 0 y hy

lemma filter_pair_last {α : Type} (p : α → Bool) (a b : α)
    (ha : p a = true) (hb : p b = true) :
    ([a, b].filter p).getLast? = some b := by
  simp [List.filter, ha, hb]

lemma maxAbs_nonneg (audio : List ℚ) : 0 ≤ maxAbs audio :=
  le_foldl_maxAbs audio 0

lemma find?_append_cons {α : Type} (p : α → Bool) (pre post : List α) (s : α)
    (hpre : ∀ x ∈ pre, p x = false) (hs : p s = true) :
    (pre ++ s :: post).find? p = some s := by
  induction pre with
  | nil => simp [List.find?_cons_of_pos, hs]
  | cons a l ih =>
    have ha : p a = false := hpre a (List.mem_cons_self a l)
    have : ((a :: l) ++ s :: post).find? p = (l ++ s :: post).find? p := by
      simp [List.find?_cons_of_neg, ha]
    rw [this]
    exact ih (fun x hx => hpre x (List.mem_cons_of_mem a hx))

lemma addAtAux_length (w : List ℚ) (s : ℕ) :
    ∀ (i : ℕ) (xs : List ℚ), (addAtAux w s i xs).length = xs.length := by
  intro i xs
  induction xs generalizing i with
  | nil => rfl
  | cons x xs ih => simp [addAtAux, ih]

lemma addAtAux_getD (w : List ℚ) (s : ℕ) :
    ∀ (xs : List ℚ) (i p : ℕ),
      (addAtAux w s i xs).getD p 0 =
        xs.getD p 0 +
          (if p < xs.length ∧ s ≤ i + p ∧ i + p < s + w.length
            then w.getD (i + p - s) 0 else 0) := by
  intro xs
  induction xs with
  | nil => intro i p; simp [addAtAux]
  | cons x xs ih =>
    intro i p
    cases p with
    | zero =>
      simp only [addAtAux, List.getD_cons_zero, List.length_cons]
      by_cases h : s ≤ i ∧ i < s + w.length
      · rw [if_pos h,
          if_pos (show 0 < xs.length + 1 ∧ s ≤ i + 0 ∧ i + 0 < s + w.length by omega)]
        rw [show i + 0 - s = i - s from by omega]
      · rw [if_neg h,
          if_neg (show ¬(0 < xs.length + 1 ∧ s ≤ i + 0 ∧ i + 0 < s + w.length) by omega)]
        rw [add_zero]
    | succ p =>
      simp only [addAtAux, List.getD_cons_succ, List.length_cons]
      rw [ih (i + 1) p]
      congr 1
      have hiff : (p < xs.length ∧ s ≤ i + 1 + p ∧ i + 1 + p < s + w.length)
          ↔ (p + 1 < xs.length + 1 ∧ s ≤ i + (p + 1) ∧ i + (p + 1) < s + w.length) := by
        omega
      rw [show i + 1 + p - s = i + (p + 1) - s from by omega]
      simp only [hiff]

lemma addAt_length (xs : List ℚ) (s : ℕ) (w : List ℚ) :
    (addAt xs s w).length = xs.length :=
  addAtAux_length w s 0 xs

lemma addAt_getD (xs : List ℚ) (s : ℕ) (w : List ℚ) (p : ℕ) :
    (addAt xs s w).getD p 0 =
      xs.getD p 0 +
        (if p < xs.length ∧ s ≤ p ∧ p < s + w.length then w.getD (p - s) 0 else 0) := by
  have h := addAtAux_getD w s xs 0 p
  simpa using h

lemma getD_replicate_q (n k : ℕ) (a : ℚ) :
    (List.replicate n a).getD k 0 = if k < n then a else 0 := by
  induction n generalizing k with
  | zero => simp
  | succ n ih =>
    cases k with
    | zero => simp [List.replicate]
    | succ k =>
      rw [List.replicate_succ, List.getD_cons_succ, ih k]
      have hiff : (k + 1 < n + 1) ↔ (k < n) := by omega
      simp only [hiff]

lemma length_windowSlice (audio : List ℚ) (s : ℕ) (h : s + 2048 ≤ audio.length) :
    (windowSlice audio s).length = 2048 := by
  simp only [windowSlice, List.length_take, List.length_drop]
  omega

lemma winStarts_le (n : ℕ) : ∀ s ∈ winStarts n, s + 2048 ≤ n := by
  intro s hs
  have h := List.mem_takeWhile_imp hs
  simpa using h

lemma winStarts_short (n : ℕ) (h : n < 2048) : winStarts n = [] := by
  unfold winStarts
  cases hk : (nWindows n).toNat with
  | zero => rfl
  | succ k =>
    rw [List.range_succ_eq_map]
    have h0 : (decide (0 * 1024 + 2048 ≤ n)) = false := by
      simp only [decide_eq_false_iff_not]
      omega
    simp [List.takeWhile, h0]

lemma zipWith_divguard_replicate (n : ℕ) :
    List.zipWith (fun e c : ℚ => if c = 0 then 0 else e / c)
      (List.replicate n 0) (List.replicate n 0) = List.replicate n 0 := by
  induction n with
  | zero => rfl
  | succ n ih => simp [List.replicate, ih]

lemma getD_zipWith_divguard (A B : List ℚ) (p : ℕ) (hp : p < A.length)
    (hAB : A.length = B.length) :
    (List.zipWith (fun e c : ℚ => if c = 0 then 0 else e / c) A B).getD p 0
      = (if B.getD p 0 = 0 then 0 else A.getD p 0 / B.getD p 0) := by
  induction A generalizing B p with
  | nil => simp at hp
  | cons a A ih =>
    cases B with
    | nil => simp at hAB
    | cons b B =>
      cases p with
      | zero => simp [List.zipWith]
      | succ p =>
        simp only [List.zipWith, List.getD_cons_succ]
        exact ih B p (by simpa using hp) (by simpa using hAB)

lemma ss_fold_getD (f : List ℚ → List ℚ) (audio : List ℚ)
    (hf : ∀ w, (f w).length = w.length) :
    ∀ (L : List ℕ), (∀ s ∈ L, s + 2048 ≤ audio.length) →
    ∀ (e c : List ℚ), e.length = audio.length → c.length = audio.length →
      (((L.foldl (ssStep f audio) (e, c)).1.length = audio.length) ∧
        ((L.foldl (ssStep f audio) (e, c)).2.length = audio.length)) ∧
      ∀ p : ℕ,
        ((L.foldl (ssStep f audio) (e, c)).1.getD p 0
            = e.getD p 0 + ((L.map (fun s =>
                if s ≤ p ∧ p < s + 2048
                then (f (windowSlice audio s)).getD (p - s) 0 else 0)).sum)) ∧
        ((L.foldl (ssStep f audio) (e, c)).2.getD p 0
            = c.getD p 0
                + ((L.filter (fun s => decide (s ≤ p ∧ p < s + 2048))).length : ℚ)) := by
  intro L
  induction L with
  | nil =>
    intro _ e c he hc
    exact ⟨⟨he, hc⟩, fun p => by simp⟩
  | cons s L ih =>
    intro hL e c he hc
    have hs : s + 2048 ≤ audio.length := hL s (List.mem_cons_self s L)
    have hwlen : (f (windowSlice audio s)).length = 2048 := by
      rw [hf, length_windowSlice audio s hs]
    have he' : (addAt e s (f (windowSlice audio s))).length = audio.length := by
      rw [addAt_length, he]
    have hc' : (addAt c s (List.replicate 2048 1)).length = audio.length := by
      rw [addAt_length, hc]
    have hL' : ∀ t ∈ L, t + 2048 ≤ audio.length :=
      fun t ht => hL t (List.mem_cons_of_mem s ht)
    obtain ⟨hlen, hpt⟩ :=
      ih hL' (addAt e s (f (windowSlice audio s))) (addAt c s (List.replicate 2048 1)) he' hc'
    have hstep : ssStep f audio (e, c) s
        = (addAt e s (f (windowSlice audio s)), addAt c s (List.replicate 2048 1)) := rfl
    have hiff : ∀ p : ℕ, (p < audio.length ∧ s ≤ p ∧ p < s + 2048) ↔ (s ≤ p ∧ p < s + 2048) := by
      intro p
      constructor
      · rintro ⟨_, h⟩; exact h
      · rintro ⟨hsp, hps⟩; exact ⟨by omega, hsp, hps⟩
    refine ⟨?_, ?_⟩
    · rw [List.foldl_cons, hstep]
      exact hlen
    · intro p
      obtain ⟨h1, h2⟩ := hpt p
      constructor
      · rw [List.foldl_cons, hstep, h1, addAt_getD, hwlen, he]
        simp only [hiff p, List.map_cons, List.sum_cons]
        ring
      · rw [List.foldl_cons, hstep, h2, addAt_getD, List.length_replicate, hc]
        simp only [hiff p]
        by_cases hcond : s ≤ p ∧ p < s + 2048
        · rw [if_pos hcond, getD_replicate_q,
            if_pos (show p - s < 2048 by omega),
            List.filter_cons_of_pos (by simpa using hcond), List.length_cons]
          push_cast
          ring
        · rw [if_neg hcond,
            List.filter_cons_of_neg (by simpa using hcond)]
          ring

lemma spectralSubtraction_length (f : List ℚ → List ℚ) (audio : List ℚ)
    (hf : ∀ w, (f w).length = w.length) :
    (spectralSubtraction f audio).length = audio.length := by
  obtain ⟨⟨h1, h2⟩, _⟩ :=
    ss_fold_getD f audio hf (winStarts audio.length) (winStarts_le audio.length)
      (List.replicate audio.length 0) (List.replicate audio.length 0)
      (by simp) (by simp)
  simp only [spectralSubtraction, List.length_zipWith]
  rw [h1, h2]
  exact min_self _

lemma spectralSubtraction_getD (f : List ℚ → List ℚ) (audio : List ℚ)
    (hf : ∀ w, (f w).length = w.length) (p : ℕ) :
    (spectralSubtraction f audio).getD p 0 =
      if coverCount audio p = 0 then 0
      else overlapSum f audio p / (coverCount audio p : ℚ) := by
  obtain ⟨⟨h1, h2⟩, hpt⟩ :=
    ss_fold_getD f audio hf (winStarts audio.length) (winStarts_le audio.length)
      (List.replicate audio.length 0) (List.replicate audio.length 0)
      (by simp) (by simp)
  obtain ⟨he, hc⟩ := hpt p
  have hz : (List.replicate audio.length (0:ℚ)).getD p 0 = 0 := by
    rw [getD_replicate_q]
    exact ite_self 0
  rw [hz, zero_add] at he hc
  by_cases hp : p < audio.length
  · have hmain : (spectralSubtraction f audio).getD p 0 =
        (if ((winStarts audio.length).foldl (ssStep f audio)
              (List.replicate audio.length 0, List.replicate audio.length 0)).2.getD p 0 = 0
          then 0
          else ((winStarts audio.length).foldl (ssStep f audio)
              (List.replicate audio.length 0, List.replicate audio.length 0)).1.getD p 0
            / ((winStarts audio.length).foldl (ssStep f audio)
              (List.replicate audio.length 0, List.replicate audio.length 0)).2.getD p 0) := by
      simp only [spectralSubtraction]
      exact getD_zipWith_divguard _ _ p (by rw [h1]; exact hp) (by rw [h1, h2])
    rw [hmain, he, hc]
    have hcast : ((((winStarts audio.length).filter
        (fun s => decide (s ≤ p ∧ p < s + 2048))).length : ℚ) = 0)
          ↔ coverCount audio p = 0 := by
      rw [coverCount]
      exact_mod_cast Iff.rfl
    by_cases h0 : coverCount audio p = 0
    · rw [if_pos (hcast.mpr h0), if_pos h0]
    · rw [if_neg (fun hc0 => h0 (hcast.mp hc0)), if_neg h0]
      rw [overlapSum, coverCount]
  · have hlen := spectralSubtraction_length f audio hf
    have hout : (spectralSubtraction f audio).getD p 0 = 0 := by
      apply List.getD_eq_default
      omega
    have hcov : coverCount audio p = 0 := by
      rw [coverCount, List.length_eq_zero]
      rw [List.filter_eq_nil_iff]
      intro s hsmem
      have := winStarts_le audio.length s hsmem
      simp only [decide_eq_true_eq]
      omega
    rw [hout, if_pos hcov]

lemma lookup_append_none (x : ℕ) (m m' : List (ℕ × ℕ)) (h : m.lookup x = none) :
    (m ++ m').lookup x = m'.lookup x := by
  induction m with
  | nil => rfl
  | cons a m ih =>
    obtain ⟨k, v⟩ := a
    rw [List.cons_append]
    by_cases hk : (x == k) = true
    · simp [List.lookup, hk] at h
    · simp only [List.lookup, hk] at h ⊢
      exact ih h

lemma innerPass_lookup_none (c : ℕ → List ℚ) (l1 : ℕ) :
    ∀ (rest : List ℕ) (m : List (ℕ × ℕ)) (x : ℕ), x ∉ rest → m.lookup x = none →
      (innerPass c l1 rest m).lookup x = none := by
  intro rest
  induction rest with
  | nil => intro m x _ hm; exact hm
  | cons l2 rs ih =>
    intro m x hx hm
    have hx2 : x ≠ l2 := fun h => hx (h ▸ List.mem_cons_self l2 rs)
    have hxrs : x ∉ rs := fun h => hx (List.mem_cons_of_mem l2 h)
    simp only [innerPass]
    by_cases h1 : (m.lookup l2).isSome = true
    · rw [if_pos h1]; exact ih m x hxrs hm
    · rw [if_neg h1]
      by_cases h2 : simGT (c l1) (c l2) (17/20) = true
      · rw [if_pos h2]
        apply ih _ x hxrs
        rw [lookup_append_none x m _ hm]
        have hb : (x == l2) = false := beq_eq_false_iff_ne.mpr hx2
        simp [List.lookup, hb]
      · rw [if_neg h2]; exact ih m x hxrs hm

lemma innerPass_mem (c : ℕ → List ℚ) (l1 : ℕ) :
    ∀ (rest : List ℕ) (m : List (ℕ × ℕ)) (p : ℕ × ℕ), p ∈ innerPass c l1 rest m →
      p ∈ m ∨ (p.2 = l1 ∧ p.1 ∈ rest ∧ simGT (c l1) (c p.1) (17/20) = true) := by
  intro rest
  induction rest with
  | nil => intro m p hp; exact Or.inl hp
  | cons l2 rs ih =>
    intro m p hp
    simp only [innerPass] at hp
    by_cases h1 : (m.lookup l2).isSome = true
    · rw [if_pos h1] at hp
      rcases ih m p hp with h | ⟨ha, hb, hc⟩
      · exact Or.inl h
      · exact Or.inr ⟨ha, List.mem_cons_of_mem l2 hb, hc⟩
    · rw [if_neg h1] at hp
      by_cases h2 : simGT (c l1) (c l2) (17/20) = true
      · rw [if_pos h2] at hp
        rcases ih _ p hp with h | ⟨ha, hb, hc⟩
        · rcases List.mem_append.mp h with h' | h'
          · exact Or.inl h'
          · have hpl : p = (l2, l1) := by simpa using h'
            subst hpl
            exact Or.inr ⟨rfl, List.mem_cons_self l2 rs, h2⟩
        · exact Or.inr ⟨ha, List.mem_cons_of_mem l2 hb, hc⟩
      · rw [if_neg h2] at hp
        rcases ih m p hp with h | ⟨ha, hb, hc⟩
        · exact Or.inl h
        · exact Or.inr ⟨ha, List.mem_cons_of_mem l2 hb, hc⟩

lemma outerPass_sound (c : ℕ → List ℚ) :
    ∀ (us : List ℕ) (m : List (ℕ × ℕ)),
      (∀ p ∈ m, simGT (c p.2) (c p.1) (17/20) = true) →
      ∀ p ∈ outerPass c us m, simGT (c p.2) (c p.1) (17/20) = true := by
  intro us
  induction us with
  | nil => intro m hm p hp; exact hm p hp
  | cons l1 rs ih =>
    intro m hm p hp
    simp only [outerPass] at hp
    by_cases h1 : (m.lookup l1).isSome = true
    · rw [if_pos h1] at hp; exact ih m hm p hp
    · rw [if_neg h1] at hp
      refine ih _ ?_ p hp
      intro q hq
      rcases innerPass_mem c l1 rs m q hq with h | ⟨ha, _, hc⟩
      · exact hm q h
      · rw [ha]; exact hc

lemma outerPass_inv (c : ℕ → List ℚ) :
    ∀ (us : List ℕ), us.Nodup →
    ∀ (m : List (ℕ × ℕ)), (∀ p ∈ m, m.lookup p.2 = none ∧ p.2 ∉ us) →
      ∀ p ∈ outerPass c us m, (outerPass c us m).lookup p.2 = none := by
  intro us
  induction us with
  | nil => intro _ m hm p hp; exact (hm p hp).1
  | cons l1 rs ih =>
    intro hnd m hm p hp
    have hnd' : rs.Nodup := hnd.of_cons
    have hl1rs : l1 ∉ rs := (List.nodup_cons.mp hnd).1
    simp only [outerPass] at hp ⊢
    by_cases h1 : (m.lookup l1).isSome = true
    · rw [if_pos h1] at hp ⊢
      refine ih hnd' m ?_ p hp
      intro q hq
      exact ⟨(hm q hq).1, fun hr => (hm q hq).2 (List.mem_cons_of_mem l1 hr)⟩
    · rw [if_neg h1] at hp ⊢
      refine ih hnd' (innerPass c l1 rs m) ?_ p hp
      intro q hq
      rcases innerPass_mem c l1 rs m q hq with h | ⟨ha, _, _⟩
      · refine ⟨?_, fun hr => (hm q h).2 (List.mem_cons_of_mem l1 hr)⟩
        apply innerPass_lookup_none c l1 rs m q.2
        · exact fun hr => (hm q h).2 (List.mem_cons_of_mem l1 hr)
        · exact (hm q h).1
      · rw [ha]
        refine ⟨?_, hl1rs⟩
        apply innerPass_lookup_none c l1 rs m l1 hl1rs
        exact Option.not_isSome_iff_eq_none.mp h1

lemma uniqueLabels_nodup (labels : List ℕ) : (uniqueLabels labels).Nodup :=
  (List.nodup_range _).filter _

lemma takeWhile_append_stop (q : Char → Bool) (l1 : List Char) (x : Char)
    (l2 : List Char) (h1 : ∀ c ∈ l1, q c = true) (hx : q x = false) :
    (l1 ++ x :: l2).takeWhile q = l1 := by
  induction l1 with
  | nil => simp [List.takeWhile_cons, hx]
  | cons a l ih =>
    have ha : q a = true := h1 a (List.mem_cons_self a l)
    simp [List.takeWhile_cons, ha,
      ih (fun c hc => h1 c (List.mem_cons_of_mem a hc))]

lemma dropWhile_append_stop (q : Char → Bool) (l1 : List Char) (x : Char)
    (l2 : List Char) (h1 : ∀ c ∈ l1, q c = true) (hx : q x = false) :
    (l1 ++ x :: l2).dropWhile q = x :: l2 := by
  induction l1 with
  | nil => simp [List.dropWhile_cons, hx]
  | cons a l ih =>
    have ha : q a = true := h1 a (List.mem_cons_self a l)
    simp [List.dropWhile_cons, ha,
      ih (fun c hc => h1 c (List.mem_cons_of_mem a hc))]

lemma data_ne_nil_of_ne_empty (p : String) (hp : p ≠ "") : p.data ≠ [] := by
  intro h
  apply hp
  cases p with
  | mk l =>
    simp only [String.data] at h
    subst h
    rfl

lemma pathSuffix_append_ext (p : String) (hp : p ≠ "") (ext : List Char)
    (hne : ext ≠ []) (hdot : ∀ c ∈ ext, decide (c ≠ '.') = true) :
    pathSuffix (String.mk (p.data ++ '.' :: ext)) = String.mk ('.' :: ext) := by
  have hrev : (String.mk (p.data ++ '.' :: ext)).data.reverse
      = ext.reverse ++ '.' :: p.data.reverse := by
    show (p.data ++ '.' :: ext).reverse = _
    rw [List.reverse_append, List.reverse_cons, List.append_assoc,
      List.singleton_append]
  have ht : (String.mk (p.data ++ '.' :: ext)).data.reverse.takeWhile
      (fun c => decide (c ≠ '.')) = ext.reverse := by
    rw [hrev]
    exact takeWhile_append_stop _ _ '.' _
      (fun c hc => hdot c (List.mem_reverse.mp hc)) (by decide)
  have hd : (String.mk (p.data ++ '.' :: ext)).data.reverse.dropWhile
      (fun c => decide (c ≠ '.')) = '.' :: p.data.reverse := by
    rw [hrev]
    exact dropWhile_append_stop _ _ '.' _
      (fun c hc => hdot c (List.mem_reverse.mp hc)) (by decide)
  unfold pathSuffix
  rw [hd, ht]
  show (if 1 ≤ ext.reverse.length ∧ 1 ≤ p.data.reverse.length
      then String.mk ('.' :: ext.reverse.reverse) else "") = String.mk ('.' :: ext)
  rw [if_pos ?_]
  · rw [List.reverse_reverse]
  · constructor
    · rw [List.length_reverse]
      exact Nat.one_le_iff_ne_zero.mpr
        (fun h0 => hne (List.length_eq_zero.mp h0))
    · rw [List.length_reverse]
      exact Nat.one_le_iff_ne_zero.mpr
        (fun h0 => data_ne_nil_of_ne_empty p hp (List.length_eq_zero.mp h0))

lemma withSuffix_no_suffix (p s : String) (h : pathSuffix p = "") :
    withSuffix p s = String.mk (p.data ++ s.data) := by
  unfold withSuffix
  rw [h]
  rw [show ("" : String).data.length = 0 from rfl, Nat.sub_zero, List.take_length]

lemma outputFile_recognized (q ft : String)
    (h : recognizedExts.contains (lowerStr (pathSuffix q)) = true) :
    outputFile q ft = q := by
  unfold outputFile
  rw [if_pos h]

lemma outputFile_unrecognized (q ft : String)
    (h : recognizedExts.contains (lowerStr (pathSuffix q)) = false) :
    outputFile q ft = withSuffix q ("." ++ ft) := by
  unfold outputFile
  rw [if_neg (show ¬(recognizedExts.contains (lowerStr (pathSuffix q)) = true) from by
    rw [h]; exact Bool.false_ne_true)]

lemma outputFile_mainNormalize (p : String) (hp : p ≠ "") (ft : String)
    (hft : ft = "json" ∨ ft = "txt" ∨ ft = "md") :
    outputFile (mainNormalize p ft) ft = outputFile p ft := by
  by_cases hs : pathSuffix p = ""
  · unfold mainNormalize
    rw [if_neg (not_not_intro hs), withSuffix_no_suffix p _ hs]
    rcases hft with h | h | h <;> subst h
    · have hext := pathSuffix_append_ext p hp ['j', 's', 'o', 'n'] (by decide) (by decide)
      show outputFile (String.mk (p.data ++ '.' :: ['j', 's', 'o', 'n'])) "json"
          = outputFile p "json"
      rw [outputFile_recognized _ _ (by rw [hext]; decide),
        outputFile_unrecognized p _ (by rw [hs]; decide),
        withSuffix_no_suffix p _ hs]
      rfl
    · have hext := pathSuffix_append_ext p hp ['t', 'x', 't'] (by decide) (by decide)
      show outputFile (String.mk (p.data ++ '.' :: ['t', 'x', 't'])) "txt"
          = outputFile p "txt"
      rw [outputFile_recognized _ _ (by rw [hext]; decide),
        outputFile_unrecognized p _ (by rw [hs]; decide),
        withSuffix_no_suffix p _ hs]
      rfl
    · have hext := pathSuffix_append_ext p hp ['m', 'd'] (by decide) (by decide)
      show outputFile (String.mk (p.data ++ '.' :: ['m', 'd'])) "md"
          = outputFile p "md"
      rw [outputFile_recognized _ _ (by rw [hext]; decide),
        outputFile_unrecognized p _ (by rw [hs]; decide),
        withSuffix_no_suffix p _ hs]
      rfl
  · unfold mainNormalize
    rw [if_pos hs]

/-! ## Sample fixtures used by counterexamples and witnesses -/

/-- A diarization result whose two speaker intervals overlap on `[5, 10]`
(overlapping intervals do arise: `Diarizer._segment_audio` windows audio
with 25% overlap). -/
def exDiar : DiarResult :=
  { segments := [⟨0, 10, "SPEAKER_01"⟩, ⟨5, 15, "SPEAKER_02"⟩]
    speakers := ["SPEAKER_01", "SPEAKER_02"] }

/-- A one-segment transcription result whose segment `[6, 8]` has midpoint
`7`, inside both intervals of `exDiar`. -/
def exTrans : TransResult :=
  { text := "hello", language := "en", segments := [⟨0, 6, 8, "hello", []⟩] }

/-- Three unit embeddings at angles `0`, `θ` and `2θ` with `cos θ = 24/25`:
clusters 0-1 and 1-2 have cosine similarity `24/25 = 0.96 > 0.85`, while
clusters 0-2 have `cos 2θ = 527/625 = 0.8432 ≤ 0.85`. -/
def exEmb : List (List ℚ) :=
  [[1, 0], [24/25, 7/25], [527/625, 336/625]]

/-! ## Claim theorems -/

/-- C1, counterexample: both intervals of `exDiar` contain the midpoint `7`
of the transcript segment `[6, 8]`; the code assigns the FIRST containing
interval's label `SPEAKER_01`, while the claim's last-match-wins reading
predicts `SPEAKER_02`. -/
theorem align_speaker_last_match_counterexample :
    (alignWithTranscription exTrans exDiar).segments.map AlignedSegment.speaker
        = ["SPEAKER_01"] ∧
    findSpeakerAtTimeLastWins exDiar 7 = "SPEAKER_02" ∧
    ("SPEAKER_01" : String) ≠ "SPEAKER_02" := by
  have d1 : decide ((0:ℚ) ≤ 7) = true := decide_eq_true (by norm_num)
  have d2 : decide ((7:ℚ) ≤ 10) = true := decide_eq_true (by norm_num)
  have d3 : decide ((5:ℚ) ≤ 7) = true := decide_eq_true (by norm_num)
  have d4 : decide ((7:ℚ) ≤ 15) = true := decide_eq_true (by norm_num)
  have hfind : findSpeakerAtTime exDiar 7 = "SPEAKER_01" := by
    unfold findSpeakerAtTime
    have hfq : exDiar.segments.find?
        (fun s => decide (s.start ≤ (7:ℚ)) && decide ((7:ℚ) ≤ s.stop))
          = some ⟨0, 10, "SPEAKER_01"⟩ := by
      show List.find? _ ((⟨0, 10, "SPEAKER_01"⟩ : DiarSegment) :: [⟨5, 15, "SPEAKER_02"⟩]) = _
      apply List.find?_cons_of_pos
      show (decide ((0:ℚ) ≤ 7) && decide ((7:ℚ) ≤ 10)) = true
      rw [d1, d2]
      rfl
    rw [hfq]
  refine ⟨?_, ?_, by decide⟩
  · have h1 : (alignWithTranscription exTrans exDiar).segments.map AlignedSegment.speaker
        = [findSpeakerAtTime exDiar (((6:ℚ) + 8) / 2)] := rfl
    rw [h1, show ((6:ℚ) + 8) / 2 = 7 by norm_num, hfind]
  · unfold findSpeakerAtTimeLastWins
    have hflt : exDiar.segments.filter
        (fun s => decide (s.start ≤ (7:ℚ)) && decide ((7:ℚ) ≤ s.stop))
          = [⟨0, 10, "SPEAKER_01"⟩, ⟨5, 15, "SPEAKER_02"⟩] := by
      show List.filter _ [(⟨0, 10, "SPEAKER_01"⟩ : DiarSegment), ⟨5, 15, "SPEAKER_02"⟩] = _
      simp only [List.filter, d1, d2, d3, d4, Bool.and_self]
    rw [hflt]
    rfl

/-- C1, amended: the speaker label of every aligned segment is
`findSpeakerAtTime` applied to the segment midpoint `(start+end)/2`; when no
diarization interval contains the timestamp the default `SPEAKER_00` is
returned; and when the interval list splits as `pre ++ s :: post` with no
interval of `pre` containing the timestamp and `s` containing it, the FIRST
matching interval `s` wins. -/
theorem align_speaker_midpoint_first_match (tr : TransResult) (d : DiarResult) :
    ((alignWithTranscription tr d).segments.map AlignedSegment.speaker
        = tr.segments.map (fun s => findSpeakerAtTime d ((s.start + s.stop) / 2))) ∧
    (∀ t : ℚ, (∀ s ∈ d.segments, ¬(s.start ≤ t ∧ t ≤ s.stop)) →
        findSpeakerAtTime d t = "SPEAKER_00") ∧
    (∀ t : ℚ, ∀ pre s post, d.segments = pre ++ s :: post →
        (∀ s' ∈ pre, ¬(s'.start ≤ t ∧ t ≤ s'.stop)) →
        s.start ≤ t → t ≤ s.stop → findSpeakerAtTime d t = s.speaker) := by
  refine ⟨?_, ?_, ?_⟩
  · simp only [alignWithTranscription, List.map_map]
    have hc : (AlignedSegment.speaker ∘ fun s : TransSegment =>
        (⟨s, findSpeakerAtTime d ((s.start + s.stop) / 2)⟩ : AlignedSegment))
          = fun s : TransSegment => findSpeakerAtTime d ((s.start + s.stop) / 2) := rfl
    rw [hc]
  · intro t h
    unfold findSpeakerAtTime
    have : d.segments.find?
        (fun s => decide (s.start ≤ t) && decide (t ≤ s.stop)) = none := by
      rw [List.find?_eq_none]
      intro x hx
      have := h x hx
      simp only [Bool.and_eq_true, decide_eq_true_eq]
      exact fun hc => this hc
    rw [this]
  · intro t pre s post hsplit hpre hs1 hs2
    unfold findSpeakerAtTime
    rw [hsplit, find?_append_cons]
    · intro x hx
      have hnx := hpre x hx
      refine Bool.eq_false_iff.mpr ?_
      simp only [ne_eq, Bool.and_eq_true, decide_eq_true_eq]
      exact fun hc => hnx hc
    · simp only [Bool.and_eq_true, decide_eq_true_eq]
      exact ⟨hs1, hs2⟩

/-- C1, witness for the amended theorem: applied to `exTrans` and a
one-interval diarization, the contained midpoint receives that interval's
label. -/
theorem align_speaker_midpoint_first_match_witness :
    findSpeakerAtTime ⟨[⟨0, 10, "SPEAKER_01"⟩], ["SPEAKER_01"]⟩ 7 = "SPEAKER_01" :=
  (align_speaker_midpoint_first_match exTrans
      ⟨[⟨0, 10, "SPEAKER_01"⟩], ["SPEAKER_01"]⟩).2.2 7 [] ⟨0, 10, "SPEAKER_01"⟩ []
    rfl (by intro s hs; cases hs) (by norm_num) (by norm_num)

/-- C2, counterexample: with preset `"default"` the caller-supplied
`noise_level = 0.9` is NOT overridden by the table value `0.5` of
`get_enhancement_info("default")`. -/
theorem enhance_preset_default_no_override_counterexample :
    applyPreset "default" (9/10) false false = ⟨9/10, false, false⟩ ∧
    (getEnhancementInfo "default").noise_reduction = 1/2 ∧
    ¬((applyPreset "default" (9/10) false false).noise_level
        = (getEnhancementInfo "default").noise_reduction) := by
  refine ⟨rfl, rfl, ?_⟩
  show ¬((9:ℚ)/10 = 1/2)
  norm_num

/-- C2, amended: the presets `"meeting"`, `"podcast"` and `"phone"` override
the caller-supplied parameters with exactly the table values of
`get_enhancement_info`; the preset `"default"` performs no override and the
caller-supplied arguments pass through unchanged (the function's declared
defaults merely coincide with the table's `"default"` entry). -/
theorem enhance_preset_override_amended (noise_level : ℚ)
    (dereverb voice_isolation : Bool) :
    (applyPreset "meeting" noise_level dereverb voice_isolation
        = ⟨(getEnhancementInfo "meeting").noise_reduction,
            (getEnhancementInfo "meeting").dereverb,
            (getEnhancementInfo "meeting").voice_isolation⟩) ∧
    (applyPreset "podcast" noise_level dereverb voice_isolation
        = ⟨(getEnhancementInfo "podcast").noise_reduction,
            (getEnhancementInfo "podcast").dereverb,
            (getEnhancementInfo "podcast").voice_isolation⟩) ∧
    (applyPreset "phone" noise_level dereverb voice_isolation
        = ⟨(getEnhancementInfo "phone").noise_reduction,
            (getEnhancementInfo "phone").dereverb,
            (getEnhancementInfo "phone").voice_isolation⟩) ∧
    (applyPreset "default" noise_level dereverb voice_isolation
        = ⟨noise_level, dereverb, voice_isolation⟩) :=
  ⟨rfl, rfl, rfl, rfl⟩

/-- C4: every sample of the peak-normalized waveform has magnitude at most
`0.95`; a waveform whose peak is `0` is returned unchanged (and is all
zero). -/
theorem normalize_audio_peak_bound (audio : List ℚ) (x : ℚ)
    (hx : x ∈ normalizeAudio audio) : |x| ≤ 19/20 := by
  unfold normalizeAudio at hx
  by_cases h : 0 < maxAbs audio
  · simp only [if_pos h, List.mem_map] at hx
    obtain ⟨y, hy, rfl⟩ := hx
    have h1 : |y| ≤ maxAbs audio := mem_le_maxAbs audio y hy
    have h2 : |y| / maxAbs audio ≤ 1 := (div_le_one h).mpr h1
    have h3 : |y / maxAbs audio * (19/20)| = |y| / maxAbs audio * (19/20) := by
      rw [abs_mul, abs_div, abs_of_pos h]
      norm_num
    rw [h3]
    calc |y| / maxAbs audio * (19/20) ≤ 1 * (19/20) :=
          mul_le_mul_of_nonneg_right h2 (by norm_num)
      _ = 19/20 := one_mul _
  · simp only [if_neg h] at hx
    have h0 : maxAbs audio = 0 := le_antisymm (not_lt.mp h) (maxAbs_nonneg audio)
    have := mem_le_maxAbs audio x hx
    rw [h0] at this
    exact le_trans this (by norm_num)

/-- C4, witness: the sample `1` of the waveform `[1, 2]` normalizes to
`19/40`, and its magnitude is within the `0.95` ceiling. -/
theorem normalize_audio_peak_bound_witness : |(19/40 : ℚ)| ≤ 19/20 :=
  normalize_audio_peak_bound [1, 2] (19/40) (by
    have h1 : |(1:ℚ)| = 1 := abs_of_pos (by norm_num)
    have h2 : |(2:ℚ)| = 2 := abs_of_pos (by norm_num)
    unfold normalizeAudio maxAbs
    simp only [List.foldl, h1, h2]
    norm_num [max_def])

/-- C7: whenever the clustering routine raises, `_cluster_speakers` degrades
to a single-speaker assignment: a list of the same length as the embedding
list in which every label is `0`. -/
theorem cluster_speakers_failure_fallback (embeddings : List (List ℚ))
    (fitPredict : List (List ℚ) → Except String (List ℕ)) (e : String)
    (h : fitPredict embeddings = .error e) :
    clusterSpeakers embeddings fitPredict = List.replicate embeddings.length 0 := by
  unfold clusterSpeakers
  by_cases hl : embeddings.length ≤ 1 <;> simp [hl, h]

/-- C7, witness: two embeddings with a clustering routine that always
raises yield the single-speaker assignment `[0, 0]`. -/
theorem cluster_speakers_failure_fallback_witness :
    clusterSpeakers [[1], [2]] (fun _ => .error "clustering failed")
      = List.replicate 2 0 :=
  cluster_speakers_failure_fallback [[1], [2]]
    (fun _ => .error "clustering failed") "clustering failed" rfl

/-- C9: alignment only adds the `speaker` field to each segment and the
`speakers` field to the result: `text` and `language` are unchanged, the
stripped segments equal the original segments (same count, order and
fields), and `speakers` comes from the diarization result. -/
theorem align_with_transcription_frame (tr : TransResult) (d : DiarResult) :
    (alignWithTranscription tr d).text = tr.text ∧
    (alignWithTranscription tr d).language = tr.language ∧
    (alignWithTranscription tr d).speakers = d.speakers ∧
    (alignWithTranscription tr d).segments.map AlignedSegment.base = tr.segments := by
  refine ⟨rfl, rfl, rfl, ?_⟩
  simp only [alignWithTranscription, List.map_map]
  have hc : (AlignedSegment.base ∘ fun s : TransSegment =>
      (⟨s, findSpeakerAtTime d ((s.start + s.stop) / 2)⟩ : AlignedSegment))
        = id := rfl
  rw [hc, List.map_id]

/-- C3: the document `_save_json` serializes holds the result unchanged
under the `"transcription"` key, and decoding that subtree yields a result
whose segments' `start`, `end`, `text` and word fields (`word`, `start`,
`end`, `probability`) — indeed all fields — are exactly those of the input
(the `json` library's string round trip is modelled as the identity on the
JSON tree, exact for Python floats). -/
theorem save_json_round_trip (now : String) (r : TransResult) :
    (saveJson now r).lookup "transcription" = some (resultToJson r) ∧
    jsonToResult (resultToJson r) = some r := by
  refine ⟨rfl, ?_⟩
  calc jsonToResult (resultToJson r)
      = (decodeSegments (r.segments.map segmentToJson)).bind (fun segments =>
          some ⟨r.text, r.language, segments⟩) := rfl
    _ = some r := by rw [decodeSegments_map]; rfl

/-- C5: in the overlap-add reconstruction every output position equals the
sum of the overlapping windows' contributions divided by the number of
windows covering it, with the division guarded (`out=zeros, where=counts != 0`)
so that positions covered by no window are zero; the function is total and
length-preserving for every input.  The per-window spectral pipeline is the
abstract parameter `f` (window-length preserving, as the FFT/IFFT pipeline
is). -/
theorem spectral_subtraction_overlap_add (f : List ℚ → List ℚ) (audio : List ℚ)
    (hf : ∀ w, (f w).length = w.length) :
    (spectralSubtraction f audio).length = audio.length ∧
    ∀ p : ℕ, (spectralSubtraction f audio).getD p 0 =
      if coverCount audio p = 0 then 0
      else overlapSum f audio p / (coverCount audio p : ℚ) :=
  ⟨spectralSubtraction_length f audio hf, fun p => spectralSubtraction_getD f audio hf p⟩

/-- C5, witness at the identity window pipeline and the two-sample input
`[1, 2]` (too short for a window, so position 0 is uncovered and zero). -/
theorem spectral_subtraction_overlap_add_witness :
    (spectralSubtraction (fun w => w) [1, 2]).length = 2 ∧
    (spectralSubtraction (fun w => w) [1, 2]).getD 0 0 =
      (if coverCount [1, 2] 0 = 0 then 0
        else overlapSum (fun w => w) [1, 2] 0 / (coverCount [1, 2] 0 : ℚ)) :=
  ⟨(spectral_subtraction_overlap_add (fun w => w) [1, 2] (fun _ => rfl)).1,
    (spectral_subtraction_overlap_add (fun w => w) [1, 2] (fun _ => rfl)).2 0⟩

/-- C10: every output sample covered by no complete FFT window is exactly
zero — in particular the whole output is zero for inputs shorter than 2048
samples. -/
theorem spectral_subtraction_uncovered_zero (f : List ℚ → List ℚ) (audio : List ℚ)
    (hf : ∀ w, (f w).length = w.length) :
    (∀ p : ℕ, coverCount audio p = 0 → (spectralSubtraction f audio).getD p 0 = 0) ∧
    (audio.length < 2048 → spectralSubtraction f audio = List.replicate audio.length 0) := by
  constructor
  · intro p hcov
    rw [spectralSubtraction_getD f audio hf p, if_pos hcov]
  · intro hlen
    simp only [spectralSubtraction, winStarts_short audio.length hlen, List.foldl_nil]
    exact zipWith_divguard_replicate audio.length

/-- C10, witness: the two-sample input `[1, 2]` is shorter than one window,
so the output is entirely zero. -/
theorem spectral_subtraction_uncovered_zero_witness :
    spectralSubtraction (fun w => w) [1, 2] = List.replicate 2 0 :=
  (spectral_subtraction_uncovered_zero (fun w => w) [1, 2] (fun _ => rfl)).2 (by decide)

/-- C6, counterexample: on `exEmb` with labels `[0, 1, 2]`, the centroids of
clusters 1 and 2 have cosine similarity `24/25 > 0.85`, yet the greedy pass
first absorbs 1 into 0 and then never revisits the pair (1, 2): the merged
labels are `[0, 0, 2]`, so the similar pair (1, 2) ends up with distinct
labels — the claim that ANY pair above the threshold is merged is false. -/
theorem merge_similar_pair_not_merged_counterexample :
    simGT (centroid exEmb [0, 1, 2] 1) (centroid exEmb [0, 1, 2] 2) (17/20) = true ∧
    mergeSimilarSpeakers exEmb [0, 1, 2] = [0, 0, 2] ∧
    (mergeSimilarSpeakers exEmb [0, 1, 2]).getD 1 0
      ≠ (mergeSimilarSpeakers exEmb [0, 1, 2]).getD 2 0 := by
  have hm0 : centroid exEmb [0, 1, 2] 0 = [1 / ((1:ℕ):ℚ), 0 / ((1:ℕ):ℚ)] := rfl
  have hm1 : centroid exEmb [0, 1, 2] 1
      = [24/25 / ((1:ℕ):ℚ), 7/25 / ((1:ℕ):ℚ)] := rfl
  have hm2 : centroid exEmb [0, 1, 2] 2
      = [527/625 / ((1:ℕ):ℚ), 336/625 / ((1:ℕ):ℚ)] := rfl
  have hs01 : simGT (centroid exEmb [0, 1, 2] 0) (centroid exEmb [0, 1, 2] 1)
      (17/20) = true := by
    rw [hm0, hm1]
    unfold simGT
    have h1 : (0:ℚ) < dotQ [1 / ((1:ℕ):ℚ), 0 / ((1:ℕ):ℚ)]
        [24/25 / ((1:ℕ):ℚ), 7/25 / ((1:ℕ):ℚ)] := by
      norm_num [dotQ, normSq]
    have h2 : ((17:ℚ)/20) ^ 2 * (normSq [1 / ((1:ℕ):ℚ), 0 / ((1:ℕ):ℚ)]
        * normSq [24/25 / ((1:ℕ):ℚ), 7/25 / ((1:ℕ):ℚ)])
          < dotQ [1 / ((1:ℕ):ℚ), 0 / ((1:ℕ):ℚ)]
              [24/25 / ((1:ℕ):ℚ), 7/25 / ((1:ℕ):ℚ)] ^ 2 := by
      norm_num [dotQ, normSq]
    rw [decide_eq_true h1, decide_eq_true h2]
    rfl
  have hs02 : simGT (centroid exEmb [0, 1, 2] 0) (centroid exEmb [0, 1, 2] 2)
      (17/20) = false := by
    rw [hm0, hm2]
    unfold simGT
    have h2 : ¬(((17:ℚ)/20) ^ 2 * (normSq [1 / ((1:ℕ):ℚ), 0 / ((1:ℕ):ℚ)]
        * normSq [527/625 / ((1:ℕ):ℚ), 336/625 / ((1:ℕ):ℚ)])
          < dotQ [1 / ((1:ℕ):ℚ), 0 / ((1:ℕ):ℚ)]
              [527/625 / ((1:ℕ):ℚ), 336/625 / ((1:ℕ):ℚ)] ^ 2) := by
      norm_num [dotQ, normSq]
    rw [decide_eq_false h2, Bool.and_false]
  have hs12 : simGT (centroid exEmb [0, 1, 2] 1) (centroid exEmb [0, 1, 2] 2)
      (17/20) = true := by
    rw [hm1, hm2]
    unfold simGT
    have h1 : (0:ℚ) < dotQ [24/25 / ((1:ℕ):ℚ), 7/25 / ((1:ℕ):ℚ)]
        [527/625 / ((1:ℕ):ℚ), 336/625 / ((1:ℕ):ℚ)] := by
      norm_num [dotQ, normSq]
    have h2 : ((17:ℚ)/20) ^ 2 * (normSq [24/25 / ((1:ℕ):ℚ), 7/25 / ((1:ℕ):ℚ)]
        * normSq [527/625 / ((1:ℕ):ℚ), 336/625 / ((1:ℕ):ℚ)])
          < dotQ [24/25 / ((1:ℕ):ℚ), 7/25 / ((1:ℕ):ℚ)]
              [527/625 / ((1:ℕ):ℚ), 336/625 / ((1:ℕ):ℚ)] ^ 2 := by
      norm_num [dotQ, normSq]
    rw [decide_eq_true h1, decide_eq_true h2]
    rfl
  have huniq : uniqueLabels [0, 1, 2] = [0, 1, 2] := rfl
  have hout : outerPass (centroid exEmb [0, 1, 2]) [0, 1, 2] [] = [(1, 0)] := by
    simp [outerPass, innerPass, List.lookup, hs01, hs02, hs12]
  have hmerged : mergeSimilarSpeakers exEmb [0, 1, 2] = [0, 0, 2] := by
    unfold mergeSimilarSpeakers
    rw [huniq, if_neg (by decide), hout]
    rfl
  refine ⟨hs12, hmerged, ?_⟩
  rw [hmerged]
  decide

/-- C6, amended: the second merge pass computes per-cluster centroids as
means and performs a single greedy pass in ascending label order: every
entry `(l2, l1)` of the mapping it builds satisfies the similarity
threshold (`sim > 0.85`) and maps to a SURVIVING cluster (`l1` itself is
never absorbed); when more than one cluster exists the result relabels each
label through that mapping, and with at most one cluster the labels are
returned unchanged.  (A pair of clusters of which one was already absorbed
earlier in the pass is not re-examined, so not every pair above the
threshold is merged.) -/
theorem merge_similar_speakers_greedy_sound (embeddings : List (List ℚ))
    (labels : List ℕ) :
    (∀ p ∈ outerPass (centroid embeddings labels) (uniqueLabels labels) [],
        simGT (centroid embeddings labels p.2) (centroid embeddings labels p.1)
            (17/20) = true ∧
        (outerPass (centroid embeddings labels) (uniqueLabels labels) []).lookup p.2
            = none) ∧
    (¬(uniqueLabels labels).length ≤ 1 →
        mergeSimilarSpeakers embeddings labels = labels.map (fun l =>
          (((outerPass (centroid embeddings labels) (uniqueLabels labels) []).lookup l).getD l))) ∧
    ((uniqueLabels labels).length ≤ 1 →
        mergeSimilarSpeakers embeddings labels = labels) := by
  refine ⟨?_, ?_, ?_⟩
  · intro p hp
    refine ⟨outerPass_sound _ _ [] (by simp) p hp, ?_⟩
    exact outerPass_inv _ _ (uniqueLabels_nodup labels) [] (by simp) p hp
  · intro h
    unfold mergeSimilarSpeakers
    rw [if_neg h]
  · intro h
    unfold mergeSimilarSpeakers
    rw [if_pos h]

/-- C6, witness for the amended theorem: a single cluster is returned
unchanged. -/
theorem merge_similar_speakers_greedy_sound_witness :
    mergeSimilarSpeakers exEmb [0] = [0] :=
  (merge_similar_speakers_greedy_sound exEmb [0]).2.2 (by decide)

/-- C8, counterexample: a supplied path with the unrecognized extension
`.wav` and format `json` is written to `audio.json` — the `.wav` extension
is REPLACED by `with_suffix`, not appended (`audio.wav.json`). -/
theorem output_extension_replaced_counterexample :
    outputFile "audio.wav" "json" = "audio.json" ∧
    ("audio.json" : String) ≠ "audio.wav" ++ ".json" := by
  refine ⟨by decide, by decide⟩

/-- C8, amended: a supplied path bearing one of `.json`, `.txt`, `.md`
(case-insensitively) is used as-is; otherwise the final path is the stem
with the current extension stripped plus the selected format's extension
(the extension is replaced when present, appended when absent); `main`'s
pre-normalization composes to the same final path for any nonempty path and
any of the three formats; and the serialized content always corresponds to
the caller-selected format type. -/
theorem save_output_path_format_amended (r : TransResult) (now p ft : String) :
    ((saveOutput r now p ft).1
        = if recognizedExts.contains (lowerStr (pathSuffix p)) then p
          else withSuffix p ("." ++ ft)) ∧
    (recognizedExts.contains (lowerStr (pathSuffix p)) = false →
        (saveOutput r now p ft).1
          = String.mk (p.data.take (p.data.length - (pathSuffix p).data.length)
              ++ ("." ++ ft).data)) ∧
    (p ≠ "" → (ft = "json" ∨ ft = "txt" ∨ ft = "md") →
        outputFile (mainNormalize p ft) ft = outputFile p ft) ∧
    ((saveOutput r now p "json").2 = some (.json (saveJson now r)) ∧
      (saveOutput r now p "txt").2 = some (.txt (renderTxt now r)) ∧
      (saveOutput r now p "md").2 = some (.md (renderMd now r))) := by
  refine ⟨rfl, ?_, ?_, rfl, rfl, rfl⟩
  · intro h
    show outputFile p ft = _
    rw [outputFile_unrecognized p ft h]
    rfl
  · intro hp hft
    exact outputFile_mainNormalize p hp ft hft

/-- C8, witness for the amended theorem: the suffix-free path `audio` with
format `txt` is written to `audio.txt` through `main` and `save_output`
alike. -/
theorem save_output_path_format_amended_witness :
    outputFile (mainNormalize "audio" "txt") "txt" = outputFile "audio" "txt" :=
  (save_output_path_format_amended exTrans "now" "audio" "txt").2.2.1
    (by decide) (Or.inr (Or.inl rfl))

end ScribeForge
